import Mathlib

/-!
# Verification of `stats.py` (intersection-of-solved-problems aggregator)

A shallow embedding of the aggregation pipeline of `src/stats.py`: the script
reads a CSV of per-problem experiment runs, checks that every requested
experiment name occurs in the data, computes per domain the intersection of
the per-experiment sets of solved problem names, and emits one averaged row
per (domain, experiment) plus a final total row.

Modelling conventions:
* a CSV cell of `solution_size` / `expanded_nodes` is modelled after the
  `pd.to_numeric(..., errors="coerce")` step: `Option ℚ`, where `none` stands
  for a cell whose numeric coercion fails (NaN); a NaN compares false under
  `>`, exactly as in pandas;
* `search_elapsed_time` cells are `Option ℚ` (`none` = missing/NaN), and
  `heuristic_name` cells are `Option String` (`none` = missing, dropped by
  `.dropna()`);
* optional columns of the input table are tracked by `Bool` flags on `Table`
  (the script tests `col in df.columns`); the required columns
  (`experiment_name`, `domain_name`, `problem_name`, `solution_size`,
  `expanded_nodes`) are fields of every record;
* Python `set`s of problem names become `Finset String`; pandas `.unique()`
  (first-occurrence distinct values) becomes `uniqueFirst`;
* `DataFrame.mean()` skips missing values (`meanOpt`);
* `sys.exit` codes and output rows are captured in `RunResult` / `exitCode`.
-/

/-- One row of the input CSV, after the numeric-coercion step of
`stats.py` lines 87-88 (`pd.to_numeric(..., errors="coerce")`): a
`solution_size` or `expanded_nodes` cell that fails coercion is `none`. -/
structure RunRecord where
  domain_name : String
  experiment_name : String
  problem_name : String
  solution_size : Option ℚ
  expanded_nodes : Option ℚ
  search_elapsed_time : Option ℚ
  heuristic_name : Option String
deriving DecidableEq

/-- The input table: its rows plus presence flags for the two optional
columns the script probes with `col in df.columns`. -/
structure Table where
  rows : List RunRecord
  hasSearchElapsedTime : Bool
  hasHeuristicName : Bool
deriving DecidableEq

/-- One aggregated output row (a dict appended to `aggregated_rows`, or the
total row).  Averaged columns are `none` when the script stores `np.nan`. -/
structure AggRow where
  domain_name : String
  experiment_name : String
  problem_count : Nat
  search_elapsed_time : Option ℚ
  solution_size : Option ℚ
  expanded_nodes : Option ℚ
  heuristic_name : String
deriving DecidableEq, Inhabited

/-- Line 89 / 110: `(df_exp["solution_size"] > 0) & (df_exp["expanded_nodes"] > 1)`.
A coerced-to-NaN cell (`none`) fails both comparisons. -/
def isSolved (r : RunRecord) : Bool :=
  (match r.solution_size with
   | some x => decide (0 < x)
   | none => false)
  &&
  (match r.expanded_nodes with
   | some y => decide (1 < y)
   | none => false)

/-- Helper for `uniqueFirst`: scan the list left to right keeping each value
the first time it is seen (`seen` is the set of values already kept). -/
def uniqueFirstAux {α : Type} [DecidableEq α] : List α → List α → List α
  | _, [] => []
  | seen, x :: xs =>
      if x ∈ seen then uniqueFirstAux seen xs
      else x :: uniqueFirstAux (x :: seen) xs

/-- pandas `Series.unique()`: the distinct values in first-occurrence order. -/
def uniqueFirst {α : Type} [DecidableEq α] (l : List α) : List α :=
  uniqueFirstAux [] l

/-- pandas `Series.mean()`: the arithmetic mean of the non-missing values,
`none` (NaN) when there is no non-missing value. -/
def meanOpt (vs : List (Option ℚ)) : Option ℚ :=
  if vs.filterMap id = [] then none
  else some ((vs.filterMap id).sum / (((vs.filterMap id).length : ℚ)))

/-- Lines 85-89: the rows of `rows` for experiment `exp` that satisfy the
solved predicate. -/
def solvedRows (rows : List RunRecord) (exp : String) : List RunRecord :=
  (rows.filter (fun r => r.experiment_name == exp)).filter isSolved

/-- Line 90: `set(solved_rows["problem_name"].unique())` — the set of solved
problem names of experiment `exp` within `rows`. -/
def solvedSet (rows : List RunRecord) (exp : String) : Finset String :=
  ((solvedRows rows exp).map (fun r => r.problem_name)).toFinset

/-- Lines 83-99: the per-experiment solved sets and their intersection
(`set.intersection(*problem_sets)`), the empty set when no experiment was
requested. -/
def commonProblems (rows : List RunRecord) : List String → Finset String
  | [] => ∅
  | e :: es => es.foldl (fun acc e2 => acc ∩ solvedSet rows e2) (solvedSet rows e)

/-- Lines 107-111: experiment `exp`'s rows, re-filtered by the solved
predicate and restricted to problems of the common set. -/
def expFinalRows (rows : List RunRecord) (common : Finset String) (exp : String) :
    List RunRecord :=
  (solvedRows rows exp).filter (fun r => decide (r.problem_name ∈ common))

/-- Lines 115-135: one aggregated dict for domain `domain`, experiment `exp`,
built from the final filtered rows `final`. -/
def mkAggRow (t : Table) (domain exp : String) (common : Finset String)
    (final : List RunRecord) : AggRow :=
  { domain_name := domain
    experiment_name := exp
    problem_count := common.card
    search_elapsed_time :=
      if t.hasSearchElapsedTime then meanOpt (final.map (fun r => r.search_elapsed_time))
      else none
    solution_size := meanOpt (final.map (fun r => r.solution_size))
    expanded_nodes := meanOpt (final.map (fun r => r.expanded_nodes))
    heuristic_name :=
      if t.hasHeuristicName then
        String.intercalate ";" (uniqueFirst (final.filterMap (fun r => r.heuristic_name)))
      else "" }

/-- Lines 95-135: the aggregated rows a single domain contributes.  The
domain is skipped when the intersection is empty (line 102), and an
experiment whose final filtered set is empty is skipped (line 112). -/
def aggRowsForDomain (t : Table) (domRows : List RunRecord) (domain : String)
    (exps : List String) : List AggRow :=
  let common := commonProblems domRows exps
  if common = ∅ then []
  else
    exps.filterMap (fun exp =>
      let final := expFinalRows domRows common exp
      if final = [] then none else some (mkAggRow t domain exp common final))

/-- Line 64: `df[df["experiment_name"].isin(experiments)]`. -/
def filteredRows (t : Table) (exps : List String) : List RunRecord :=
  t.rows.filter (fun r => decide (r.experiment_name ∈ exps))

/-- Line 67: `df["domain_name"].unique()` on the experiment-filtered table. -/
def domains (t : Table) (exps : List String) : List String :=
  uniqueFirst ((filteredRows t exps).map (fun r => r.domain_name))

/-- Line 79: `df[df["domain_name"] == domain]`. -/
def domainRows (t : Table) (exps : List String) (d : String) : List RunRecord :=
  (filteredRows t exps).filter (fun r => r.domain_name == d)

/-- Lines 70-135: the full list `aggregated_rows`, all domains in
first-occurrence (processing) order. -/
def aggregatedRows (t : Table) (exps : List String) : List AggRow :=
  (domains t exps).flatMap (fun d => aggRowsForDomain t (domainRows t exps d) d exps)

/-- Lines 144-149: the synthetic total row over the aggregated rows. -/
def totalRow (ag : List AggRow) : AggRow :=
  { domain_name := "Total"
    experiment_name := ""
    problem_count := (ag.map (fun r => r.problem_count)).sum
    search_elapsed_time := meanOpt (ag.map (fun r => r.search_elapsed_time))
    solution_size := meanOpt (ag.map (fun r => r.solution_size))
    expanded_nodes := meanOpt (ag.map (fun r => r.expanded_nodes))
    heuristic_name := "" }

/-- Line 52: `set(df["experiment_name"].unique())`, as its list of distinct
values in first-occurrence order. -/
def availableExperiments (t : Table) : List String :=
  uniqueFirst (t.rows.map (fun r => r.experiment_name))

/-- Line 53: the requested names absent from the data, in requested order. -/
def missingExperiments (t : Table) (exps : List String) : List String :=
  exps.filter (fun e => decide (e ∉ availableExperiments t))

/-- Line 59: `sorted(available_experiments)`. -/
def sortedAvailable (t : Table) : List String :=
  List.insertionSort (fun a b => a ≤ b) (availableExperiments t)

/-- The observable outcome of one run: the missing-experiment error
(line 61, exit 1), the empty-result exit (line 142, exit 0), or a normal
run writing the aggregated rows followed by the total row. -/
inductive RunResult where
  | missingExps (missing : List String) (available : List String)
  | noCommon
  | ok (outRows : List AggRow)
deriving DecidableEq

/-- Lines 51-153: the whole pipeline after the CSV has been read. -/
def run (t : Table) (exps : List String) : RunResult :=
  if missingExperiments t exps = [] then
    let ag := aggregatedRows t exps
    if ag = [] then RunResult.noCommon
    else RunResult.ok (ag ++ [totalRow ag])
  else
    RunResult.missingExps (missingExperiments t exps) (sortedAvailable t)

/-- The process exit code of each outcome: `sys.exit(1)` at line 61,
`sys.exit(0)` at line 142, and the implicit 0 of a normal return (a write
error at line 160 is printed but does not change the exit code). -/
def exitCode : RunResult → Nat
  | RunResult.missingExps _ _ => 1
  | RunResult.noCommon => 0
  | RunResult.ok _ => 0

/-- The rendering of one exact rational under `float_format="%.2f"`
(line 157), on the embedding's exact rationals: round to the nearest
hundredth and print the integer part, a point, and two decimal digits.
(The binary-double representation error and the tie/negative-zero details
of C's `%f` are abstracted away; the shape of the output is what matters.) -/
def fmtQ2 (q : ℚ) : String :=
  let n : Int := round (q * 100)
  let sign := if n < 0 then "-" else ""
  let m : Nat := n.natAbs
  sign ++ toString (m / 100) ++ "." ++
    String.mk [Nat.digitChar (m / 10 % 10), Nat.digitChar (m % 10)]

/-- An optional float cell in `to_csv` output: NaN renders as the empty
cell, a value through the `%.2f` float format. -/
def renderCell : Option ℚ → String
  | none => ""
  | some q => fmtQ2 q

/-- One CSV line of `to_csv(..., index=False, float_format="%.2f")` as its
list of cells, in the DataFrame's column order (insertion order of the
aggregated dict, lines 115-133): `domain_name`, `experiment_name`,
`problem_count`, `search_elapsed_time`, `solution_size`, `expanded_nodes`,
`heuristic_name`.  `problem_count` is an integer column, so the float
format does not apply to it: it renders as a plain integer. -/
def renderAggRow (r : AggRow) : List String :=
  [r.domain_name, r.experiment_name, toString r.problem_count,
   renderCell r.search_elapsed_time, renderCell r.solution_size,
   renderCell r.expanded_nodes, r.heuristic_name]

/-- "Exactly two digits after the decimal point": the string ends in a
point followed by exactly two digit characters. -/
def TwoDecimalShape (s : String) : Prop :=
  ∃ pre a b, s.data = pre ++ ['.', a, b] ∧ a.isDigit = true ∧ b.isDigit = true

/-! ## Concrete sample tables (used by the closed witness theorems) -/

/-- Domain `D`, experiment `A`, problem `p1`: solved (size 2 > 0, nodes 3 > 1). -/
def wr1 : RunRecord := ⟨"D", "A", "p1", some 2, some 3, some 1, some "h1"⟩

/-- Domain `D`, experiment `A`, problem `p2`: solved. -/
def wr2 : RunRecord := ⟨"D", "A", "p2", some 1, some 5, some 2, some "h2"⟩

/-- Domain `D`, experiment `B`, problem `p1`: solved. -/
def wr3 : RunRecord := ⟨"D", "B", "p1", some 3, some 4, some 3, some "h1"⟩

/-- Domain `D`, experiment `B`, problem `p3`: solved by `B`, but not common,
since `A` never solves `p3`. -/
def wr4 : RunRecord := ⟨"D", "B", "p3", some 1, some 2, some 1, none⟩

/-- A small table with one domain and two experiments: `A` solves `{p1, p2}`,
`B` solves `{p1, p3}`, so the common solved set is `{p1}`. -/
def sampleTable : Table := ⟨[wr1, wr2, wr3, wr4], true, true⟩

/-- A table whose single record fails the solved predicate (`solution_size`
fails numeric coercion), so no domain has a common solved problem. -/
def unsolvedTable : Table := ⟨[⟨"D", "A", "p1", none, some 5, some 1, none⟩], true, true⟩

/-! ## Helper lemmas: generic list facts -/

lemma headI_mem {α : Type} [Inhabited α] {l : List α} (h : l ≠ []) : l.headI ∈ l := by
  cases l with
  | nil => exact absurd rfl h
  | cons a t => simp [List.headI]

lemma mem_uniqueFirstAux {α : Type} [DecidableEq α] {a : α} :
    ∀ {l seen : List α}, a ∈ uniqueFirstAux seen l ↔ a ∈ l ∧ a ∉ seen := by
  intro l
  induction l with
  | nil => intro seen; simp [uniqueFirstAux]
  | cons x xs ih =>
    intro seen
    by_cases hx : x ∈ seen
    · by_cases hax : a = x
      · subst hax
        simp [uniqueFirstAux, hx, ih, hx]
      · simp [uniqueFirstAux, hx, ih, hax]
    · by_cases hax : a = x
      · subst hax
        simp [uniqueFirstAux, hx]
      · simp [uniqueFirstAux, hx, ih, hax]

lemma uniqueFirstAux_sublist {α : Type} [DecidableEq α] :
    ∀ (l seen : List α), (uniqueFirstAux seen l).Sublist l := by
  intro l
  induction l with
  | nil => intro seen; simp [uniqueFirstAux]
  | cons x xs ih =>
    intro seen
    by_cases hx : x ∈ seen
    · simpa [uniqueFirstAux, hx] using (ih seen).cons x
    · simpa [uniqueFirstAux, hx] using (ih (x :: seen)).cons₂ x

lemma uniqueFirstAux_nodup {α : Type} [DecidableEq α] :
    ∀ (l seen : List α), (uniqueFirstAux seen l).Nodup := by
  intro l
  induction l with
  | nil => intro seen; simp [uniqueFirstAux]
  | cons x xs ih =>
    intro seen
    by_cases hx : x ∈ seen
    · simpa [uniqueFirstAux, hx] using ih seen
    · have hnot : x ∉ uniqueFirstAux (x :: seen) xs := by
        intro hmem
        exact (mem_uniqueFirstAux.1 hmem).2 (List.mem_cons_self x seen)
      simp only [uniqueFirstAux, if_neg hx, List.nodup_cons]
      exact ⟨hnot, ih (x :: seen)⟩

lemma mem_uniqueFirst {α : Type} [DecidableEq α] {a : α} {l : List α} :
    a ∈ uniqueFirst l ↔ a ∈ l := by
  simp [uniqueFirst, mem_uniqueFirstAux]

lemma uniqueFirst_sublist {α : Type} [DecidableEq α] (l : List α) :
    (uniqueFirst l).Sublist l :=
  uniqueFirstAux_sublist l []

lemma uniqueFirst_nodup {α : Type} [DecidableEq α] (l : List α) :
    (uniqueFirst l).Nodup :=
  uniqueFirstAux_nodup l []

lemma uniqueFirstAux_eq_uniqueFirst_filter {α : Type} [DecidableEq α] :
    ∀ (n : Nat) (l : List α), l.length ≤ n → ∀ (seen : List α),
      uniqueFirstAux seen l = uniqueFirst (l.filter (fun y => decide (y ∉ seen))) := by
  intro n
  induction n with
  | zero =>
    intro l hl seen
    have : l = [] := List.length_eq_zero.1 (Nat.le_zero.1 hl)
    subst this
    rfl
  | succ n ih =>
    intro l hl seen
    cases l with
    | nil => rfl
    | cons x xs =>
      have hlen : xs.length ≤ n := Nat.le_of_succ_le_succ hl
      by_cases hx : x ∈ seen
      · rw [show uniqueFirstAux seen (x :: xs) = uniqueFirstAux seen xs from if_pos hx]
        rw [ih xs hlen seen]
        congr 1
        simp [List.filter_cons, hx]
      · rw [show uniqueFirstAux seen (x :: xs) = x :: uniqueFirstAux (x :: seen) xs from
          if_neg hx]
        have hfil : (x :: xs).filter (fun y => decide (y ∉ seen))
            = x :: xs.filter (fun y => decide (y ∉ seen)) := by
          simp [List.filter_cons, hx]
        rw [hfil]
        have hstep : uniqueFirst (x :: xs.filter (fun y => decide (y ∉ seen)))
            = x :: uniqueFirstAux [x] (xs.filter (fun y => decide (y ∉ seen))) := by
          simp [uniqueFirst, uniqueFirstAux]
        rw [hstep]
        congr 1
        rw [ih xs hlen (x :: seen)]
        have hlen2 : (xs.filter (fun y => decide (y ∉ seen))).length ≤ n :=
          Nat.le_trans (List.length_filter_le _ _) hlen
        rw [ih (xs.filter (fun y => decide (y ∉ seen))) hlen2 [x]]
        congr 1
        rw [List.filter_filter]
        apply List.filter_congr
        intro y _
        by_cases hy1 : y = x <;> by_cases hy2 : y ∈ seen <;> simp [hy1, hy2]

lemma uniqueFirst_cons {α : Type} [DecidableEq α] (x : α) (l : List α) :
    uniqueFirst (x :: l) = x :: uniqueFirst (l.filter (fun y => decide (y ≠ x))) := by
  have h0 : uniqueFirst (x :: l) = x :: uniqueFirstAux [x] l := by
    simp [uniqueFirst, uniqueFirstAux]
  rw [h0, uniqueFirstAux_eq_uniqueFirst_filter l.length l (Nat.le_refl _) [x]]
  congr 1
  congr 1
  apply List.filter_congr
  intro y _
  simp

lemma uniqueFirst_append_block {α : Type} [DecidableEq α] (x : α) (A B : List α)
    (hA : ∀ a ∈ A, a = x) (hAne : A ≠ []) :
    uniqueFirst (A ++ B) = x :: uniqueFirst (B.filter (fun y => decide (y ≠ x))) := by
  cases A with
  | nil => exact absurd rfl hAne
  | cons a A2 =>
    have hax : a = x := hA a (List.mem_cons_self a A2)
    subst hax
    rw [List.cons_append, uniqueFirst_cons]
    congr 1
    congr 1
    rw [List.filter_append]
    have hA2 : A2.filter (fun y => decide (y ≠ a)) = [] := by
      rw [List.filter_eq_nil_iff]
      intro b hb
      simp [hA b (List.mem_cons_of_mem a hb)]
    rw [hA2, List.nil_append]

/-! ## Helper lemmas: means -/

lemma filterMap_id_length_allSome {vs : List (Option ℚ)}
    (h : ∀ v ∈ vs, v.isSome = true) : (vs.filterMap id).length = vs.length := by
  induction vs with
  | nil => rfl
  | cons v tl ih =>
    cases v with
    | none => exact absurd (h none (List.mem_cons_self _ _)) (by simp)
    | some x =>
      simp only [List.filterMap_cons, id, List.length_cons]
      rw [ih (fun w hw => h w (List.mem_cons_of_mem _ hw))]

lemma meanOpt_allSome {vs : List (Option ℚ)} (hne : vs ≠ [])
    (h : ∀ v ∈ vs, v.isSome = true) :
    meanOpt vs = some ((vs.filterMap id).sum / ((vs.length : ℚ))) := by
  have hlen := filterMap_id_length_allSome h
  have hfne : vs.filterMap id ≠ [] := by
    intro h0
    rw [h0] at hlen
    exact hne (List.length_eq_zero.1 hlen.symm)
  rw [meanOpt, if_neg hfne, hlen]

lemma mul_length_lt_sum (c : ℚ) :
    ∀ (xs : List ℚ), xs ≠ [] → (∀ x ∈ xs, c < x) → c * (xs.length : ℚ) < xs.sum := by
  intro xs
  induction xs with
  | nil => intro h; exact absurd rfl h
  | cons x tl ih =>
    intro _ h
    cases tl with
    | nil =>
      simpa using h x (List.mem_cons_self _ _)
    | cons y tl2 =>
      have h1 : c < x := h x (List.mem_cons_self _ _)
      have h2 : c * (((y :: tl2).length : ℚ)) < (y :: tl2).sum :=
        ih (by simp) (fun z hz => h z (List.mem_cons_of_mem _ hz))
      have hexp : c * (((x :: y :: tl2).length : ℚ))
          = c + c * (((y :: tl2).length : ℚ)) := by
        push_cast [List.length_cons]
        ring
      rw [hexp, List.sum_cons]
      exact add_lt_add h1 h2

lemma lt_meanOpt (c : ℚ) {vs : List (Option ℚ)} (hne : vs ≠ [])
    (h : ∀ v ∈ vs, ∃ x, v = some x ∧ c < x) :
    ∃ m, meanOpt vs = some m ∧ c < m := by
  have hxs : ∀ x ∈ vs.filterMap id, c < x := by
    intro x hx
    obtain ⟨v, hv, hvx⟩ := List.mem_filterMap.1 hx
    obtain ⟨y, hy, hcy⟩ := h v hv
    subst hy
    cases hvx
    exact hcy
  have hfne : vs.filterMap id ≠ [] := by
    cases vs with
    | nil => exact absurd rfl hne
    | cons v tl =>
      obtain ⟨x, hx, _⟩ := h v (List.mem_cons_self _ _)
      subst hx
      simp [List.filterMap_cons]
  refine ⟨(vs.filterMap id).sum / (((vs.filterMap id).length : ℚ)), ?_, ?_⟩
  · rw [meanOpt, if_neg hfne]
  · have hposlen : 0 < (((vs.filterMap id).length : ℚ)) := by
      have : 0 < (vs.filterMap id).length := List.length_pos.2 hfne
      exact_mod_cast this
    rw [lt_div_iff₀ hposlen]
    exact mul_length_lt_sum c _ hfne hxs

/-! ## Helper lemmas: the pipeline -/

lemma mem_solvedRows {rows : List RunRecord} {e : String} {r : RunRecord} :
    r ∈ solvedRows rows e ↔ r ∈ rows ∧ r.experiment_name = e ∧ isSolved r = true := by
  simp only [solvedRows, List.mem_filter, beq_iff_eq, and_assoc]

lemma mem_solvedSet {rows : List RunRecord} {e : String} {p : String} :
    p ∈ solvedSet rows e ↔
      ∃ r ∈ rows, r.experiment_name = e ∧ isSolved r = true ∧ r.problem_name = p := by
  simp only [solvedSet, List.mem_toFinset, List.mem_map, mem_solvedRows]
  constructor
  · rintro ⟨r, ⟨hr, he, hs⟩, hp⟩
    exact ⟨r, hr, he, hs, hp⟩
  · rintro ⟨r, hr, he, hs, hp⟩
    exact ⟨r, ⟨hr, he, hs⟩, hp⟩

lemma mem_foldl_inter {rows : List RunRecord} {p : String} :
    ∀ (es : List String) (init : Finset String),
      p ∈ es.foldl (fun acc e2 => acc ∩ solvedSet rows e2) init ↔
        p ∈ init ∧ ∀ e ∈ es, p ∈ solvedSet rows e := by
  intro es
  induction es with
  | nil => intro init; simp
  | cons e es2 ih =>
    intro init
    rw [List.foldl_cons, ih (init ∩ solvedSet rows e)]
    simp only [Finset.mem_inter, List.mem_cons]
    constructor
    · rintro ⟨⟨h1, h2⟩, h3⟩
      exact ⟨h1, fun x hx => hx.elim (fun hxe => hxe ▸ h2) (h3 x)⟩
    · rintro ⟨h1, h2⟩
      exact ⟨⟨h1, h2 e (Or.inl rfl)⟩, fun x hx => h2 x (Or.inr hx)⟩

lemma mem_commonProblems {rows : List RunRecord} {exps : List String} {p : String}
    (hne : exps ≠ []) :
    p ∈ commonProblems rows exps ↔ ∀ e ∈ exps, p ∈ solvedSet rows e := by
  cases exps with
  | nil => exact absurd rfl hne
  | cons e es =>
    rw [commonProblems, mem_foldl_inter]
    simp only [List.mem_cons]
    constructor
    · rintro ⟨h1, h2⟩
      exact fun x hx => hx.elim (fun hxe => hxe ▸ h1) (h2 x)
    · intro h
      exact ⟨h e (Or.inl rfl), fun x hx => h x (Or.inr hx)⟩

lemma exps_ne_nil_of_commonProblems {rows : List RunRecord} {exps : List String}
    (h : commonProblems rows exps ≠ ∅) : exps ≠ [] := by
  intro he
  subst he
  exact h rfl

lemma mem_expFinalRows {rows : List RunRecord} {common : Finset String} {e : String}
    {r : RunRecord} :
    r ∈ expFinalRows rows common e ↔
      r ∈ rows ∧ r.experiment_name = e ∧ isSolved r = true ∧ r.problem_name ∈ common := by
  simp [expFinalRows, List.mem_filter, mem_solvedRows, and_assoc]

lemma expFinalRows_ne_nil {rows : List RunRecord} {exps : List String} {e p : String}
    (hp : p ∈ commonProblems rows exps) (he : e ∈ exps) :
    expFinalRows rows (commonProblems rows exps) e ≠ [] := by
  have hne : exps ≠ [] := by
    intro hnil
    subst hnil
    exact absurd hp (by simp [commonProblems])
  have hps : p ∈ solvedSet rows e := (mem_commonProblems hne).1 hp e he
  obtain ⟨r, hr, hre, hrs, hrp⟩ := mem_solvedSet.1 hps
  exact List.ne_nil_of_mem (mem_expFinalRows.2 ⟨hr, hre, hrs, hrp ▸ hp⟩)

lemma mem_aggRowsForDomain {t : Table} {domRows : List RunRecord} {d : String}
    {exps : List String} {row : AggRow} :
    row ∈ aggRowsForDomain t domRows d exps ↔
      commonProblems domRows exps ≠ ∅ ∧
      ∃ e ∈ exps, expFinalRows domRows (commonProblems domRows exps) e ≠ [] ∧
        row = mkAggRow t d e (commonProblems domRows exps)
          (expFinalRows domRows (commonProblems domRows exps) e) := by
  have hdef : aggRowsForDomain t domRows d exps
      = if commonProblems domRows exps = ∅ then []
        else exps.filterMap (fun e =>
          if expFinalRows domRows (commonProblems domRows exps) e = [] then none
          else some (mkAggRow t d e (commonProblems domRows exps)
            (expFinalRows domRows (commonProblems domRows exps) e))) := rfl
  rw [hdef]
  by_cases hc : commonProblems domRows exps = ∅
  · simp [hc]
  · rw [if_neg hc, List.mem_filterMap]
    simp only [ne_eq, hc, not_false_iff, true_and]
    constructor
    · rintro ⟨e, he, hfe⟩
      by_cases hnil : expFinalRows domRows (commonProblems domRows exps) e = []
      · rw [if_pos hnil] at hfe
        exact absurd hfe (by simp)
      · rw [if_neg hnil] at hfe
        exact ⟨e, he, hnil, (Option.some_inj.1 hfe).symm⟩
    · rintro ⟨e, he, hnil, rfl⟩
      exact ⟨e, he, by rw [if_neg hnil]⟩

lemma mem_aggregatedRows {t : Table} {exps : List String} {row : AggRow} :
    row ∈ aggregatedRows t exps ↔
      ∃ d ∈ domains t exps, row ∈ aggRowsForDomain t (domainRows t exps d) d exps := by
  simp [aggregatedRows, List.mem_flatMap]

lemma mkAggRow_domain_name (t : Table) (d e : String) (c : Finset String)
    (f : List RunRecord) : (mkAggRow t d e c f).domain_name = d := rfl

lemma mkAggRow_experiment_name (t : Table) (d e : String) (c : Finset String)
    (f : List RunRecord) : (mkAggRow t d e c f).experiment_name = e := rfl

/-- The structure of every emitted aggregated row: each row `row` of
`aggregatedRows t exps` is the `mkAggRow` built for its own domain and
experiment from a non-empty final filtered row set, over a non-empty
common solved set. -/
lemma aggregatedRows_spec {t : Table} {exps : List String} {row : AggRow}
    (h : row ∈ aggregatedRows t exps) :
    row.domain_name ∈ domains t exps ∧
    row.experiment_name ∈ exps ∧
    commonProblems (domainRows t exps row.domain_name) exps ≠ ∅ ∧
    expFinalRows (domainRows t exps row.domain_name)
      (commonProblems (domainRows t exps row.domain_name) exps) row.experiment_name ≠ [] ∧
    row = mkAggRow t row.domain_name row.experiment_name
      (commonProblems (domainRows t exps row.domain_name) exps)
      (expFinalRows (domainRows t exps row.domain_name)
        (commonProblems (domainRows t exps row.domain_name) exps) row.experiment_name) := by
  obtain ⟨d, hd, hrow⟩ := mem_aggregatedRows.1 h
  obtain ⟨hc, e, he, hnil, hmk⟩ := mem_aggRowsForDomain.1 hrow
  have hdn : row.domain_name = d := by
    rw [hmk]
    exact mkAggRow_domain_name t d e _ _
  have hen : row.experiment_name = e := by
    rw [hmk]
    exact mkAggRow_experiment_name t d e _ _
  rw [hdn, hen]
  exact ⟨hd, he, hc, hnil, hmk⟩

/-! ## Helper lemmas: the solved predicate and row fields -/

lemma isSolved_iff {r : RunRecord} :
    isSolved r = true ↔
      (∃ x, r.solution_size = some x ∧ 0 < x) ∧
      (∃ y, r.expanded_nodes = some y ∧ 1 < y) := by
  cases hs : r.solution_size <;> cases he : r.expanded_nodes <;>
    simp [isSolved, hs, he]

lemma mkAggRow_problem_count (t : Table) (d e : String) (c : Finset String)
    (f : List RunRecord) : (mkAggRow t d e c f).problem_count = c.card := rfl

lemma aggRow_problem_count {t : Table} {exps : List String} {row : AggRow}
    (h : row ∈ aggregatedRows t exps) :
    row.problem_count = (commonProblems (domainRows t exps row.domain_name) exps).card := by
  obtain ⟨-, -, -, -, hmk⟩ := aggregatedRows_spec h
  conv_lhs => rw [hmk]
  rfl

/-! ## Helper lemmas: run unfolding -/

lemma run_eq_ite (t : Table) (exps : List String) :
    run t exps =
      if missingExperiments t exps = [] then
        (if aggregatedRows t exps = [] then RunResult.noCommon
         else RunResult.ok (aggregatedRows t exps ++ [totalRow (aggregatedRows t exps)]))
      else RunResult.missingExps (missingExperiments t exps) (sortedAvailable t) := rfl

lemma run_ok {t : Table} {exps : List String} (hmiss : missingExperiments t exps = [])
    (hne : aggregatedRows t exps ≠ []) :
    run t exps = RunResult.ok (aggregatedRows t exps ++ [totalRow (aggregatedRows t exps)]) := by
  rw [run_eq_ite, if_pos hmiss, if_neg hne]

/-! ## Helper lemmas: grouping of the output by domain -/

lemma flatMap_filter_eq_nil {β : Type} (nm : β → String) :
    ∀ (l : List String) (g : String → List β),
      (∀ x ∈ l, ∀ r ∈ g x, nm r = x) → ∀ d ∉ l,
      (l.flatMap g).filter (fun r => nm r == d) = [] := by
  intro l
  induction l with
  | nil => intro g _ d _; simp
  | cons x xs ih =>
    intro g hg d hd
    have hdx : d ≠ x := fun h => hd (h ▸ List.mem_cons_self x xs)
    have hdxs : d ∉ xs := fun h => hd (List.mem_cons_of_mem x h)
    rw [List.flatMap_cons, List.filter_append]
    have h1 : (g x).filter (fun r => nm r == d) = [] := by
      rw [List.filter_eq_nil_iff]
      intro r hr
      simp only [beq_iff_eq, hg x (List.mem_cons_self x xs) r hr]
      exact fun h => hdx h.symm
    rw [h1, List.nil_append]
    exact ih g (fun y hy r hr => hg y (List.mem_cons_of_mem x hy) r hr) d hdxs

lemma flatMap_filter_eq_of_mem {β : Type} (nm : β → String) :
    ∀ (l : List String), l.Nodup → ∀ (g : String → List β),
      (∀ x ∈ l, ∀ r ∈ g x, nm r = x) → ∀ d ∈ l,
      (l.flatMap g).filter (fun r => nm r == d) = g d := by
  intro l
  induction l with
  | nil => intro _ g _ d hd; exact absurd hd (by simp)
  | cons x xs ih =>
    intro hnd g hg d hd
    rw [List.flatMap_cons, List.filter_append]
    by_cases hdx : d = x
    · subst hdx
      have h1 : (g d).filter (fun r => nm r == d) = g d := by
        rw [List.filter_eq_self]
        intro r hr
        simp [hg d (List.mem_cons_self d xs) r hr]
      have hdxs : d ∉ xs := (List.nodup_cons.1 hnd).1
      have h2 : (xs.flatMap g).filter (fun r => nm r == d) = [] :=
        flatMap_filter_eq_nil nm xs g
          (fun y hy r hr => hg y (List.mem_cons_of_mem d hy) r hr) d hdxs
      rw [h1, h2, List.append_nil]
    · have hdxs : d ∈ xs := (List.mem_cons.1 hd).resolve_left hdx
      have h1 : (g x).filter (fun r => nm r == d) = [] := by
        rw [List.filter_eq_nil_iff]
        intro r hr
        simp only [beq_iff_eq, hg x (List.mem_cons_self x xs) r hr]
        exact fun h => hdx h.symm
      rw [h1, List.nil_append]
      exact ih (List.nodup_cons.1 hnd).2 g
        (fun y hy r hr => hg y (List.mem_cons_of_mem x hy) r hr) d hdxs

lemma flatMap_filter_infix {β : Type} (nm : β → String) (l : List String)
    (hnd : l.Nodup) (g : String → List β)
    (hg : ∀ x ∈ l, ∀ r ∈ g x, nm r = x) (d : String) :
    ∃ A C, l.flatMap g = A ++ ((l.flatMap g).filter (fun r => nm r == d)) ++ C := by
  by_cases hd : d ∈ l
  · rw [flatMap_filter_eq_of_mem nm l hnd g hg d hd]
    obtain ⟨s, u, hsu⟩ := List.append_of_mem hd
    refine ⟨s.flatMap g, u.flatMap g, ?_⟩
    rw [hsu, List.flatMap_append, List.flatMap_cons, List.append_assoc]
  · rw [flatMap_filter_eq_nil nm l g hg d hd]
    exact ⟨l.flatMap g, [], by simp⟩

lemma filterMap_map_sublist {β : Type} (nm : β → String) :
    ∀ (exps : List String) (f : String → Option β),
      (∀ e r, f e = some r → nm r = e) →
      ((exps.filterMap f).map nm).Sublist exps := by
  intro exps
  induction exps with
  | nil => intro f _; simp
  | cons e es ih =>
    intro f hf
    rw [List.filterMap_cons]
    cases hfe : f e with
    | none => exact (ih f hf).cons e
    | some r =>
      rw [List.map_cons, hf e r hfe]
      exact (ih f hf).cons₂ e

lemma filter_filterMap_length_le {β : Type} (nm : β → String) :
    ∀ (exps : List String), exps.Nodup → ∀ (f : String → Option β),
      (∀ e r, f e = some r → nm r = e) → ∀ (e : String),
      ((exps.filterMap f).filter (fun r => nm r == e)).length ≤ 1 := by
  intro exps
  induction exps with
  | nil => intro _ f _ e; simp
  | cons a as ih =>
    intro hnd f hf e
    rw [List.filterMap_cons]
    cases hfa : f a with
    | none => exact ih (List.nodup_cons.1 hnd).2 f hf e
    | some r =>
      have hra : nm r = a := hf a r hfa
      by_cases hae : a = e
      · subst hae
        rw [List.filter_cons_of_pos (by simp [hra])]
        have hrest : (as.filterMap f).filter (fun r2 => nm r2 == a) = [] := by
          rw [List.filter_eq_nil_iff]
          intro r2 hr2
          obtain ⟨a2, ha2, hfa2⟩ := List.mem_filterMap.1 hr2
          simp only [beq_iff_eq, hf a2 r2 hfa2]
          intro h
          exact (List.nodup_cons.1 hnd).1 (h ▸ ha2)
        rw [hrest]
        simp
      · rw [List.filter_cons_of_neg (by simp only [beq_iff_eq, hra]; simp [hae])]
        exact ih (List.nodup_cons.1 hnd).2 f hf e

lemma uniqueFirst_flatMap_map_sublist {β : Type} (nm : β → String) :
    ∀ (l : List String), l.Nodup → ∀ (g : String → List β),
      (∀ x ∈ l, ∀ r ∈ g x, nm r = x) →
      (uniqueFirst ((l.flatMap g).map nm)).Sublist l := by
  intro l
  induction l with
  | nil => intro _ g _; simp [uniqueFirst, uniqueFirstAux]
  | cons x xs ih =>
    intro hnd g hg
    rw [List.flatMap_cons, List.map_append]
    have hB : ∀ b ∈ (xs.flatMap g).map nm, b ∈ xs := by
      intro b hb
      obtain ⟨r, hr, hrb⟩ := List.mem_map.1 hb
      obtain ⟨y, hy, hry⟩ := List.mem_flatMap.1 hr
      rw [← hrb, hg y (List.mem_cons_of_mem x hy) r hry]
      exact hy
    have hxxs : x ∉ xs := (List.nodup_cons.1 hnd).1
    have ihx := ih (List.nodup_cons.1 hnd).2 g
      (fun y hy r hr => hg y (List.mem_cons_of_mem x hy) r hr)
    by_cases hA : (g x).map nm = []
    · rw [hA, List.nil_append]
      exact ihx.cons x
    · have hAall : ∀ a ∈ (g x).map nm, a = x := by
        intro a ha
        obtain ⟨r, hr, hra⟩ := List.mem_map.1 ha
        rw [← hra]
        exact hg x (List.mem_cons_self x xs) r hr
      rw [uniqueFirst_append_block x _ _ hAall hA]
      have hBf : ((xs.flatMap g).map nm).filter (fun y => decide (y ≠ x))
          = (xs.flatMap g).map nm := by
        rw [List.filter_eq_self]
        intro b hb
        simp only [decide_eq_true_eq, ne_eq]
        exact fun h => hxxs (h ▸ hB b hb)
      rw [hBf]
      exact ihx.cons₂ x

/-! ## Helper lemmas: per-domain contribution and row projections -/

lemma aggRowsForDomain_domain_name {t : Table} {domRows : List RunRecord}
    {d : String} {exps : List String} {row : AggRow}
    (h : row ∈ aggRowsForDomain t domRows d exps) : row.domain_name = d := by
  obtain ⟨-, e, -, -, hmk⟩ := mem_aggRowsForDomain.1 h
  rw [hmk]
  rfl

lemma aggRowsForDomain_ne_nil_iff {t : Table} {domRows : List RunRecord}
    {d : String} {exps : List String} :
    aggRowsForDomain t domRows d exps ≠ [] ↔ commonProblems domRows exps ≠ ∅ := by
  constructor
  · intro hne hc
    have hdef : aggRowsForDomain t domRows d exps
        = if commonProblems domRows exps = ∅ then []
          else exps.filterMap (fun e =>
            if expFinalRows domRows (commonProblems domRows exps) e = [] then none
            else some (mkAggRow t d e (commonProblems domRows exps)
              (expFinalRows domRows (commonProblems domRows exps) e))) := rfl
    rw [hdef, if_pos hc] at hne
    exact hne rfl
  · intro hc
    obtain ⟨p, hp⟩ := Finset.nonempty_iff_ne_empty.2 hc
    have hexne : exps ≠ [] := exps_ne_nil_of_commonProblems hc
    cases exps with
    | nil => exact absurd rfl hexne
    | cons e es =>
      have hnil := expFinalRows_ne_nil hp (List.mem_cons_self e es)
      exact List.ne_nil_of_mem (mem_aggRowsForDomain.2
        ⟨hc, e, List.mem_cons_self e es, hnil, rfl⟩)

lemma aggRow_heuristic_name {t : Table} {exps : List String} {row : AggRow}
    (h : row ∈ aggregatedRows t exps) :
    row.heuristic_name =
      if t.hasHeuristicName then
        String.intercalate ";" (uniqueFirst
          ((expFinalRows (domainRows t exps row.domain_name)
            (commonProblems (domainRows t exps row.domain_name) exps)
            row.experiment_name).filterMap (fun r => r.heuristic_name)))
      else "" := by
  obtain ⟨-, -, -, -, hmk⟩ := aggregatedRows_spec h
  conv_lhs => rw [hmk]
  rfl

lemma aggRow_solution_size {t : Table} {exps : List String} {row : AggRow}
    (h : row ∈ aggregatedRows t exps) :
    row.solution_size = meanOpt
      ((expFinalRows (domainRows t exps row.domain_name)
        (commonProblems (domainRows t exps row.domain_name) exps)
        row.experiment_name).map (fun r => r.solution_size)) := by
  obtain ⟨-, -, -, -, hmk⟩ := aggregatedRows_spec h
  conv_lhs => rw [hmk]
  rfl

lemma aggRow_expanded_nodes {t : Table} {exps : List String} {row : AggRow}
    (h : row ∈ aggregatedRows t exps) :
    row.expanded_nodes = meanOpt
      ((expFinalRows (domainRows t exps row.domain_name)
        (commonProblems (domainRows t exps row.domain_name) exps)
        row.experiment_name).map (fun r => r.expanded_nodes)) := by
  obtain ⟨-, -, -, -, hmk⟩ := aggregatedRows_spec h
  conv_lhs => rw [hmk]
  rfl

/-! ## Helper lemmas: the output format -/

lemma digitChar_isDigit {n : Nat} (h : n < 10) : (Nat.digitChar n).isDigit = true := by
  interval_cases n <;> decide

lemma fmtQ2_shape (q : ℚ) : TwoDecimalShape (fmtQ2 q) := by
  have hdef : fmtQ2 q
      = (if round (q * 100) < 0 then "-" else "")
        ++ toString ((round (q * 100)).natAbs / 100) ++ "." ++
        String.mk [Nat.digitChar ((round (q * 100)).natAbs / 10 % 10),
          Nat.digitChar ((round (q * 100)).natAbs % 10)] := rfl
  show ∃ pre a b, (fmtQ2 q).data = pre ++ ['.', a, b]
    ∧ a.isDigit = true ∧ b.isDigit = true
  refine ⟨((if round (q * 100) < 0 then "-" else "")
        ++ toString ((round (q * 100)).natAbs / 100)).data,
      Nat.digitChar ((round (q * 100)).natAbs / 10 % 10),
      Nat.digitChar ((round (q * 100)).natAbs % 10), ?_, ?_, ?_⟩
  · rw [hdef]
    have hdot : ("." : String).data = ['.'] := rfl
    simp [String.data_append, hdot, List.append_assoc]
  · exact digitChar_isDigit (Nat.mod_lt _ (by norm_num))
  · exact digitChar_isDigit (Nat.mod_lt _ (by norm_num))

/-! ## The claims -/

/-- C2: a run record is counted as solved iff its `solution_size` coerces to a
number strictly greater than 0 and its `expanded_nodes` coerces to a number
strictly greater than 1; a record with a failed coercion on either field is
excluded from the solved set regardless of the other field, and membership in
a per-experiment solved set is exactly witnessed by a solved record. -/
theorem stats_C2_solved_predicate :
    (∀ r : RunRecord, isSolved r = true ↔
      ((∃ x, r.solution_size = some x ∧ 0 < x) ∧
       (∃ y, r.expanded_nodes = some y ∧ 1 < y))) ∧
    (∀ r : RunRecord, r.solution_size = none → isSolved r = false) ∧
    (∀ r : RunRecord, r.expanded_nodes = none → isSolved r = false) ∧
    (∀ (rows : List RunRecord) (e p : String),
      p ∈ solvedSet rows e ↔
        ∃ r ∈ rows, r.experiment_name = e ∧ isSolved r = true ∧ r.problem_name = p) := by
  refine ⟨fun r => isSolved_iff, ?_, ?_, fun rows e p => mem_solvedSet⟩
  · intro r h
    cases hs : isSolved r with
    | false => rfl
    | true =>
      obtain ⟨⟨x, hx, -⟩, -⟩ := isSolved_iff.1 hs
      rw [h] at hx
      exact Option.noConfusion hx
  · intro r h
    cases hs : isSolved r with
    | false => rfl
    | true =>
      obtain ⟨-, ⟨y, hy, -⟩⟩ := isSolved_iff.1 hs
      rw [h] at hy
      exact Option.noConfusion hy

/-- C1: every emitted domain row's `problem_count` equals the cardinality of
the intersection, over all requested experiments, of that domain's
per-experiment solved-problem-name sets (the membership of `commonProblems`
is exactly that intersection), and the value is identical across all rows
emitted for the same domain. -/
theorem stats_C1_problem_count (t : Table) (exps : List String) (row : AggRow)
    (h : row ∈ aggregatedRows t exps) :
    row.problem_count
      = (commonProblems (domainRows t exps row.domain_name) exps).card ∧
    (∀ p, p ∈ commonProblems (domainRows t exps row.domain_name) exps ↔
      ∀ e ∈ exps, p ∈ solvedSet (domainRows t exps row.domain_name) e) ∧
    (∀ row2 ∈ aggregatedRows t exps, row2.domain_name = row.domain_name →
      row2.problem_count = row.problem_count) := by
  have hexps : exps ≠ [] :=
    exps_ne_nil_of_commonProblems (aggregatedRows_spec h).2.2.1
  refine ⟨aggRow_problem_count h, fun p => mem_commonProblems hexps, ?_⟩
  intro row2 h2 hdeq
  rw [aggRow_problem_count h2, aggRow_problem_count h, hdeq]

/-- C1 witness: the first emitted row of the sample table (domain `D`,
experiment `A`) has `problem_count` equal to the cardinality of its domain's
common solved set. -/
theorem stats_C1_witness :
    ((aggregatedRows sampleTable ["A", "B"]).headI).problem_count
      = (commonProblems (domainRows sampleTable ["A", "B"]
          ((aggregatedRows sampleTable ["A", "B"]).headI).domain_name) ["A", "B"]).card :=
  (stats_C1_problem_count sampleTable ["A", "B"]
    ((aggregatedRows sampleTable ["A", "B"]).headI) (headI_mem (by decide))).1

/-- C10: every emitted aggregated domain row's averaged `solution_size` is
strictly greater than 0 and its averaged `expanded_nodes` strictly greater
than 1, because every contributing record satisfies the solved predicate. -/
theorem stats_C10_avg_bounds (t : Table) (exps : List String) (row : AggRow)
    (h : row ∈ aggregatedRows t exps) :
    (∃ m, row.solution_size = some m ∧ 0 < m) ∧
    (∃ m, row.expanded_nodes = some m ∧ 1 < m) := by
  obtain ⟨-, -, -, hfin, -⟩ := aggregatedRows_spec h
  constructor
  · rw [aggRow_solution_size h]
    refine lt_meanOpt 0 ?_ ?_
    · intro hm
      exact hfin (List.map_eq_nil_iff.1 hm)
    · intro v hv
      obtain ⟨r, hr, hrv⟩ := List.mem_map.1 hv
      obtain ⟨⟨x, hx, hxpos⟩, -⟩ := isSolved_iff.1 ((mem_expFinalRows.1 hr).2.2.1)
      exact ⟨x, hrv ▸ hx, hxpos⟩
  · rw [aggRow_expanded_nodes h]
    refine lt_meanOpt 1 ?_ ?_
    · intro hm
      exact hfin (List.map_eq_nil_iff.1 hm)
    · intro v hv
      obtain ⟨r, hr, hrv⟩ := List.mem_map.1 hv
      obtain ⟨-, ⟨y, hy, hypos⟩⟩ := isSolved_iff.1 ((mem_expFinalRows.1 hr).2.2.1)
      exact ⟨y, hrv ▸ hy, hypos⟩

/-- C10 witness: the first emitted row of the sample table has a positive
averaged solution size and an averaged expanded-node count above 1. -/
theorem stats_C10_witness :
    (∃ m, ((aggregatedRows sampleTable ["A", "B"]).headI).solution_size = some m ∧ 0 < m) ∧
    (∃ m, ((aggregatedRows sampleTable ["A", "B"]).headI).expanded_nodes = some m ∧ 1 < m) :=
  stats_C10_avg_bounds sampleTable ["A", "B"]
    ((aggregatedRows sampleTable ["A", "B"]).headI) (headI_mem (by decide))

/-- C8: every emitted row's `heuristic_name` is the semicolon-join of the
distinct non-missing heuristic names of that row's final filtered record
set (empty string when the column is absent), where the dedup keeps the
distinct values in first-encounter order: it is duplicate-free, a sublist
of (hence ordered like) the original, with the same members, and keeps the
head of the list while dropping its later duplicates. -/
theorem stats_C8_heuristic (t : Table) (exps : List String) (row : AggRow)
    (h : row ∈ aggregatedRows t exps) :
    (row.heuristic_name =
      if t.hasHeuristicName then
        String.intercalate ";" (uniqueFirst
          ((expFinalRows (domainRows t exps row.domain_name)
            (commonProblems (domainRows t exps row.domain_name) exps)
            row.experiment_name).filterMap (fun r => r.heuristic_name)))
      else "") ∧
    (∀ l : List String, (uniqueFirst l).Nodup ∧ (uniqueFirst l).Sublist l ∧
      (∀ a, a ∈ uniqueFirst l ↔ a ∈ l)) ∧
    (∀ (a : String) (l : List String),
      uniqueFirst (a :: l) = a :: uniqueFirst (l.filter (fun b => decide (b ≠ a)))) :=
  ⟨aggRow_heuristic_name h,
   fun l => ⟨uniqueFirst_nodup l, uniqueFirst_sublist l, fun _ => mem_uniqueFirst⟩,
   fun a l => uniqueFirst_cons a l⟩

/-- C8 witness: the first emitted row of the sample table carries the
semicolon-join of its filtered rows' distinct heuristic names. -/
theorem stats_C8_witness :
    ((aggregatedRows sampleTable ["A", "B"]).headI).heuristic_name =
      if sampleTable.hasHeuristicName then
        String.intercalate ";" (uniqueFirst
          ((expFinalRows (domainRows sampleTable ["A", "B"]
            ((aggregatedRows sampleTable ["A", "B"]).headI).domain_name)
            (commonProblems (domainRows sampleTable ["A", "B"]
              ((aggregatedRows sampleTable ["A", "B"]).headI).domain_name) ["A", "B"])
            ((aggregatedRows sampleTable ["A", "B"]).headI).experiment_name).filterMap
              (fun r => r.heuristic_name)))
      else "" :=
  (stats_C8_heuristic sampleTable ["A", "B"]
    ((aggregatedRows sampleTable ["A", "B"]).headI) (headI_mem (by decide))).1

/-- C9: when no domain yields a common solved problem (no aggregated rows),
the run reports the empty result and exits successfully with code 0, writing
no output rows. -/
theorem stats_C9_empty_result (t : Table) (exps : List String)
    (hmiss : missingExperiments t exps = [])
    (hempty : aggregatedRows t exps = []) :
    run t exps = RunResult.noCommon ∧ exitCode (run t exps) = 0 := by
  have h1 : run t exps = RunResult.noCommon := by
    rw [run_eq_ite, if_pos hmiss, if_pos hempty]
  exact ⟨h1, by rw [h1]; rfl⟩

/-- C9 witness: the table whose only record fails numeric coercion produces
no aggregated rows, and the run ends in the empty-result outcome. -/
theorem stats_C9_witness :
    missingExperiments unsolvedTable ["A"] = [] ∧
    aggregatedRows unsolvedTable ["A"] = [] ∧
    run unsolvedTable ["A"] = RunResult.noCommon :=
  ⟨by decide, by decide,
   (stats_C9_empty_result unsolvedTable ["A"] (by decide) (by decide)).1⟩

/-- C6: when at least one requested experiment name is absent from the data,
the run reports the full missing list (the requested names with no matching
record) and the full sorted list of available names (a sorted permutation of
the distinct `experiment_name` values), exits with code 1, and produces no
output rows. -/
theorem stats_C6_missing_experiment (t : Table) (exps : List String)
    (h : missingExperiments t exps ≠ []) :
    run t exps
      = RunResult.missingExps (missingExperiments t exps) (sortedAvailable t) ∧
    exitCode (run t exps) = 1 ∧
    (∀ e, e ∈ missingExperiments t exps ↔
      e ∈ exps ∧ ∀ r ∈ t.rows, r.experiment_name ≠ e) ∧
    (∀ e, e ∈ availableExperiments t ↔ ∃ r ∈ t.rows, r.experiment_name = e) ∧
    (sortedAvailable t).Perm (availableExperiments t) ∧
    (sortedAvailable t).Sorted (fun a b => a ≤ b) := by
  have h1 : run t exps
      = RunResult.missingExps (missingExperiments t exps) (sortedAvailable t) := by
    rw [run_eq_ite, if_neg h]
  have hav : ∀ e, e ∈ availableExperiments t ↔ ∃ r ∈ t.rows, r.experiment_name = e := by
    intro e
    simp [availableExperiments, mem_uniqueFirst, List.mem_map]
  refine ⟨h1, by rw [h1]; rfl, ?_, hav, List.perm_insertionSort _ _,
    List.sorted_insertionSort _ _⟩
  intro e
  simp only [missingExperiments, List.mem_filter, decide_eq_true_eq, hav e]
  push_neg
  constructor
  · rintro ⟨h1, h2⟩
    exact ⟨h1, fun r hr => (h2 r hr)⟩
  · rintro ⟨h1, h2⟩
    exact ⟨h1, fun r hr => (h2 r hr)⟩

/-- C6 witness: requesting `C`, which the sample table does not contain,
ends in the missing-experiment outcome. -/
theorem stats_C6_witness :
    missingExperiments sampleTable ["A", "C"] ≠ [] ∧
    run sampleTable ["A", "C"]
      = RunResult.missingExps (missingExperiments sampleTable ["A", "C"])
          (sortedAvailable sampleTable) :=
  ⟨by decide, (stats_C6_missing_experiment sampleTable ["A", "C"] (by decide)).1⟩

/-- C3: whenever at least one aggregated row exists, the run emits the
aggregated rows followed by exactly one total row, whose `domain_name` is
`Total`, whose `experiment_name` and `heuristic_name` are empty, whose
`problem_count` is the sum of the aggregated rows' counts, and whose each
averaged column is the unweighted arithmetic mean (sum divided by the number
of aggregated rows) of that column over the aggregated rows whenever all of
them are defined — a mean of per-row means. -/
theorem stats_C3_total_row (t : Table) (exps : List String)
    (hmiss : missingExperiments t exps = [])
    (hne : aggregatedRows t exps ≠ []) :
    run t exps
      = RunResult.ok (aggregatedRows t exps ++ [totalRow (aggregatedRows t exps)]) ∧
    (totalRow (aggregatedRows t exps)).domain_name = "Total" ∧
    (totalRow (aggregatedRows t exps)).experiment_name = "" ∧
    (totalRow (aggregatedRows t exps)).heuristic_name = "" ∧
    (totalRow (aggregatedRows t exps)).problem_count
      = ((aggregatedRows t exps).map (fun r => r.problem_count)).sum ∧
    ((∀ v ∈ (aggregatedRows t exps).map (fun r => r.search_elapsed_time), v.isSome = true) →
      (totalRow (aggregatedRows t exps)).search_elapsed_time
        = some ((((aggregatedRows t exps).map (fun r => r.search_elapsed_time)).filterMap id).sum
            / (((aggregatedRows t exps).length : ℚ)))) ∧
    ((∀ v ∈ (aggregatedRows t exps).map (fun r => r.solution_size), v.isSome = true) →
      (totalRow (aggregatedRows t exps)).solution_size
        = some ((((aggregatedRows t exps).map (fun r => r.solution_size)).filterMap id).sum
            / (((aggregatedRows t exps).length : ℚ)))) ∧
    ((∀ v ∈ (aggregatedRows t exps).map (fun r => r.expanded_nodes), v.isSome = true) →
      (totalRow (aggregatedRows t exps)).expanded_nodes
        = some ((((aggregatedRows t exps).map (fun r => r.expanded_nodes)).filterMap id).sum
            / (((aggregatedRows t exps).length : ℚ)))) := by
  have hmap : ∀ f : AggRow → Option ℚ, (aggregatedRows t exps).map f ≠ [] := by
    intro f hm
    exact hne (List.map_eq_nil_iff.1 hm)
  refine ⟨run_ok hmiss hne, rfl, rfl, rfl, rfl, ?_, ?_, ?_⟩
  · intro hall
    have := meanOpt_allSome (hmap (fun r => r.search_elapsed_time)) hall
    rw [show (totalRow (aggregatedRows t exps)).search_elapsed_time
        = meanOpt ((aggregatedRows t exps).map (fun r => r.search_elapsed_time)) from rfl,
      this, List.length_map]
  · intro hall
    have := meanOpt_allSome (hmap (fun r => r.solution_size)) hall
    rw [show (totalRow (aggregatedRows t exps)).solution_size
        = meanOpt ((aggregatedRows t exps).map (fun r => r.solution_size)) from rfl,
      this, List.length_map]
  · intro hall
    have := meanOpt_allSome (hmap (fun r => r.expanded_nodes)) hall
    rw [show (totalRow (aggregatedRows t exps)).expanded_nodes
        = meanOpt ((aggregatedRows t exps).map (fun r => r.expanded_nodes)) from rfl,
      this, List.length_map]

/-- C3 witness: on the sample table the run produces the aggregated rows
followed by the single total row. -/
theorem stats_C3_witness :
    missingExperiments sampleTable ["A", "B"] = [] ∧
    aggregatedRows sampleTable ["A", "B"] ≠ [] ∧
    run sampleTable ["A", "B"] = RunResult.ok (aggregatedRows sampleTable ["A", "B"]
      ++ [totalRow (aggregatedRows sampleTable ["A", "B"])]) :=
  ⟨by decide, by decide,
   (stats_C3_total_row sampleTable ["A", "B"] (by decide) (by decide)).1⟩

/-- C4: a domain of the experiment-filtered input contributes at least one
aggregated row iff its common solved set is non-empty; a row with that
domain name exists iff the common set is non-empty (so no row is ever
emitted for a domain with empty common set); and when the common set is
non-empty, the final filtered row set is non-empty for every requested
experiment, so the defensive empty-set skip never suppresses a row. -/
theorem stats_C4_domain_contribution (t : Table) (exps : List String) (d : String)
    (hd : d ∈ domains t exps) :
    (aggRowsForDomain t (domainRows t exps d) d exps ≠ [] ↔
      commonProblems (domainRows t exps d) exps ≠ ∅) ∧
    ((∃ row ∈ aggregatedRows t exps, row.domain_name = d) ↔
      commonProblems (domainRows t exps d) exps ≠ ∅) ∧
    (commonProblems (domainRows t exps d) exps ≠ ∅ →
      ∀ e ∈ exps, expFinalRows (domainRows t exps d)
        (commonProblems (domainRows t exps d) exps) e ≠ []) := by
  refine ⟨aggRowsForDomain_ne_nil_iff, ?_, ?_⟩
  · constructor
    · rintro ⟨row, hrow, hrd⟩
      have hc := (aggregatedRows_spec hrow).2.2.1
      rwa [hrd] at hc
    · intro hc
      obtain ⟨row, hrow⟩ :=
        List.exists_mem_of_ne_nil _ (aggRowsForDomain_ne_nil_iff.2 hc)
      exact ⟨row, mem_aggregatedRows.2 ⟨d, hd, hrow⟩, aggRowsForDomain_domain_name hrow⟩
  · intro hc e he
    obtain ⟨p, hp⟩ := Finset.nonempty_iff_ne_empty.2 hc
    exact expFinalRows_ne_nil hp he

/-- C4 witness: the sample table's domain `D` contributes rows exactly
because its common solved set is non-empty. -/
theorem stats_C4_witness :
    "D" ∈ domains sampleTable ["A", "B"] ∧
    (aggRowsForDomain sampleTable (domainRows sampleTable ["A", "B"] "D") "D" ["A", "B"] ≠ [] ↔
      commonProblems (domainRows sampleTable ["A", "B"] "D") ["A", "B"] ≠ ∅) :=
  ⟨by decide, (stats_C4_domain_contribution sampleTable ["A", "B"] "D" (by decide)).1⟩

lemma aggRowFn_experiment_name {t : Table} {domRows : List RunRecord} {d : String}
    {common : Finset String} :
    ∀ (e : String) (r : AggRow),
      (if expFinalRows domRows common e = [] then none
       else some (mkAggRow t d e common (expFinalRows domRows common e))) = some r →
      r.experiment_name = e := by
  intro e r hf
  by_cases hnil : expFinalRows domRows common e = []
  · rw [if_pos hnil] at hf
    exact absurd hf (by simp)
  · rw [if_neg hnil] at hf
    rw [← Option.some_inj.1 hf]
    rfl

lemma filter_domain_eq_of_mem (l : List String) (hnd : l.Nodup)
    (g : String → List AggRow) (hg : ∀ x ∈ l, ∀ r ∈ g x, r.domain_name = x)
    (d : String) (hd : d ∈ l) :
    (l.flatMap g).filter (fun r => r.domain_name == d) = g d :=
  flatMap_filter_eq_of_mem (fun r => r.domain_name) l hnd g hg d hd

lemma filter_domain_eq_nil (l : List String) (g : String → List AggRow)
    (hg : ∀ x ∈ l, ∀ r ∈ g x, r.domain_name = x) (d : String) (hd : d ∉ l) :
    (l.flatMap g).filter (fun r => r.domain_name == d) = [] :=
  flatMap_filter_eq_nil (fun r => r.domain_name) l g hg d hd

lemma filter_domain_infix (l : List String) (hnd : l.Nodup)
    (g : String → List AggRow) (hg : ∀ x ∈ l, ∀ r ∈ g x, r.domain_name = x)
    (d : String) :
    ∃ A C, l.flatMap g
      = A ++ ((l.flatMap g).filter (fun r => r.domain_name == d)) ++ C :=
  flatMap_filter_infix (fun r => r.domain_name) l hnd g hg d

lemma filterMap_map_exp_sublist (exps : List String) (f : String → Option AggRow)
    (hf : ∀ e r, f e = some r → r.experiment_name = e) :
    ((exps.filterMap f).map (fun r => r.experiment_name)).Sublist exps :=
  filterMap_map_sublist (fun r => r.experiment_name) exps f hf

lemma filter_exp_filterMap_length_le (exps : List String) (hnd : exps.Nodup)
    (f : String → Option AggRow)
    (hf : ∀ e r, f e = some r → r.experiment_name = e) (e : String) :
    ((exps.filterMap f).filter (fun r => r.experiment_name == e)).length ≤ 1 :=
  filter_filterMap_length_le (fun r => r.experiment_name) exps hnd f hf e

lemma uniqueFirst_map_domain_sublist (l : List String) (hnd : l.Nodup)
    (g : String → List AggRow) (hg : ∀ x ∈ l, ∀ r ∈ g x, r.domain_name = x) :
    (uniqueFirst ((l.flatMap g).map (fun r => r.domain_name))).Sublist l :=
  uniqueFirst_flatMap_map_sublist (fun r => r.domain_name) l hnd g hg

/-- C5 counterexample: with the duplicate request `["A", "A"]` the sample
table gets two identical aggregated rows for the single pair (`D`, `A`),
and the output differs from the one for the deduplicated request `["A"]` —
so duplicates are not redundant and a pair can receive two rows. -/
theorem stats_C5_counterexample :
    ((aggregatedRows sampleTable ["A", "A"]).filter
      (fun r => r.domain_name == "D" && r.experiment_name == "A")).length = 2 ∧
    aggregatedRows sampleTable ["A", "A"] ≠ aggregatedRows sampleTable ["A"] := by
  constructor
  · decide
  · intro heq
    have h2 : (aggregatedRows sampleTable ["A", "A"]).length = 2 := by decide
    have h1 : (aggregatedRows sampleTable ["A"]).length = 1 := by decide
    rw [heq, h1] at h2
    exact absurd h2 (by decide)

/-- C5 (amended): one aggregated row is emitted per occurrence of an
experiment in the requested list, so when the requested list is
duplicate-free at most one row is emitted per distinct (domain, experiment)
pair; a row for a pair exists iff the domain occurs in the filtered input,
the experiment was requested, the domain's common solved set is non-empty
and the experiment's final filtered record set is non-empty. -/
theorem stats_C5_amended (t : Table) (exps : List String) (hnd : exps.Nodup)
    (d e : String) :
    ((aggregatedRows t exps).filter
      (fun r => r.domain_name == d && r.experiment_name == e)).length ≤ 1 ∧
    ((∃ row ∈ aggregatedRows t exps, row.domain_name = d ∧ row.experiment_name = e) ↔
      (d ∈ domains t exps ∧ e ∈ exps ∧
        commonProblems (domainRows t exps d) exps ≠ ∅ ∧
        expFinalRows (domainRows t exps d)
          (commonProblems (domainRows t exps d) exps) e ≠ [])) := by
  have hagg : aggregatedRows t exps
      = (domains t exps).flatMap
          (fun d2 => aggRowsForDomain t (domainRows t exps d2) d2 exps) := rfl
  have hg : ∀ x ∈ domains t exps,
      ∀ r ∈ aggRowsForDomain t (domainRows t exps x) x exps, r.domain_name = x :=
    fun x _ r hr => aggRowsForDomain_domain_name hr
  constructor
  · have hsplit : (aggregatedRows t exps).filter
        (fun r => r.domain_name == d && r.experiment_name == e)
        = ((aggregatedRows t exps).filter (fun r => r.domain_name == d)).filter
            (fun r => r.experiment_name == e) := by
      rw [List.filter_filter]
      apply List.filter_congr
      intro r _
      rw [Bool.and_comm]
    rw [hsplit]
    by_cases hd : d ∈ domains t exps
    · rw [hagg, filter_domain_eq_of_mem (domains t exps)
        (uniqueFirst_nodup _) _ hg d hd]
      have hdef : aggRowsForDomain t (domainRows t exps d) d exps
          = if commonProblems (domainRows t exps d) exps = ∅ then []
            else exps.filterMap (fun e2 =>
              if expFinalRows (domainRows t exps d)
                  (commonProblems (domainRows t exps d) exps) e2 = [] then none
              else some (mkAggRow t d e2 (commonProblems (domainRows t exps d) exps)
                (expFinalRows (domainRows t exps d)
                  (commonProblems (domainRows t exps d) exps) e2))) := rfl
      rw [hdef]
      by_cases hc : commonProblems (domainRows t exps d) exps = ∅
      · rw [if_pos hc]
        simp
      · rw [if_neg hc]
        exact filter_exp_filterMap_length_le exps hnd _
          (fun e2 r2 hf => aggRowFn_experiment_name e2 r2 hf) e
    · rw [hagg, filter_domain_eq_nil (domains t exps) _ hg d hd]
      simp
  · constructor
    · rintro ⟨row, hrow, hrd, hre⟩
      obtain ⟨hd2, he2, hc2, hfin2, -⟩ := aggregatedRows_spec hrow
      rw [hrd] at hd2 hc2
      rw [hre] at he2
      rw [hrd, hre] at hfin2
      exact ⟨hd2, he2, hc2, hfin2⟩
    · rintro ⟨hd2, he2, hc2, hfin2⟩
      refine ⟨mkAggRow t d e (commonProblems (domainRows t exps d) exps)
        (expFinalRows (domainRows t exps d)
          (commonProblems (domainRows t exps d) exps) e), ?_, rfl, rfl⟩
      exact mem_aggregatedRows.2 ⟨d, hd2, mem_aggRowsForDomain.2 ⟨hc2, e, he2, hfin2, rfl⟩⟩

/-- C5 witness: for the duplicate-free request `["A", "B"]` the pair
(`D`, `A`) receives at most one row. -/
theorem stats_C5_witness :
    (["A", "B"] : List String).Nodup ∧
    ((aggregatedRows sampleTable ["A", "B"]).filter
      (fun r => r.domain_name == "D" && r.experiment_name == "A")).length ≤ 1 :=
  ⟨by decide, (stats_C5_amended sampleTable ["A", "B"] (by decide) "D" "A").1⟩

/-- C7 counterexample: on the sample table the run ends with the single
total row, but the emitted representation of the numeric `problem_count`
field of the first aggregated row is the plain integer string `1`
(`float_format` applies only to float columns), which does not carry two
digits after a decimal point — refuting the claim that every emitted
numeric field is formatted with exactly two digits after the decimal
point. -/
theorem stats_C7_counterexample :
    run sampleTable ["A", "B"] = RunResult.ok (aggregatedRows sampleTable ["A", "B"]
      ++ [totalRow (aggregatedRows sampleTable ["A", "B"])]) ∧
    (renderAggRow ((aggregatedRows sampleTable ["A", "B"]).headI))[2]? = some "1" ∧
    ¬ TwoDecimalShape "1" := by
  refine ⟨run_ok (by decide) (by decide), by decide, ?_⟩
  rintro ⟨pre, a, b, hdata, -, -⟩
  have h1 : ("1" : String).data = ['1'] := rfl
  rw [h1] at hdata
  have hlen := congrArg List.length hdata
  simp [List.length_append] at hlen

/-- C7 (amended): the output is the aggregated rows followed by exactly one
total row as the final row; each domain's rows are contiguous (the rows of
any domain name form an infix of the sequence), the domain names appear in
processing order (their first-occurrence list is a sublist of the processed
domain list), and within each domain the experiment names appear in
requested order (a sublist of the request); float-valued cells are rendered
through the two-decimal float format, missing cells render empty — but the
integer `problem_count` column is rendered as a plain integer, not with two
decimals. -/
theorem stats_C7_amended (t : Table) (exps : List String)
    (hmiss : missingExperiments t exps = [])
    (hne : aggregatedRows t exps ≠ []) :
    run t exps
      = RunResult.ok (aggregatedRows t exps ++ [totalRow (aggregatedRows t exps)]) ∧
    (∀ d, ∃ A C, aggregatedRows t exps
      = A ++ ((aggregatedRows t exps).filter (fun r => r.domain_name == d)) ++ C) ∧
    (uniqueFirst ((aggregatedRows t exps).map (fun r => r.domain_name))).Sublist
      (domains t exps) ∧
    (∀ d, (((aggregatedRows t exps).filter (fun r => r.domain_name == d)).map
      (fun r => r.experiment_name)).Sublist exps) ∧
    (∀ q : ℚ, TwoDecimalShape (renderCell (some q))) ∧
    renderCell none = "" ∧
    (∀ row : AggRow, (renderAggRow row)[2]? = some (toString row.problem_count)) := by
  have hagg : aggregatedRows t exps
      = (domains t exps).flatMap
          (fun d2 => aggRowsForDomain t (domainRows t exps d2) d2 exps) := rfl
  have hg : ∀ x ∈ domains t exps,
      ∀ r ∈ aggRowsForDomain t (domainRows t exps x) x exps, r.domain_name = x :=
    fun x _ r hr => aggRowsForDomain_domain_name hr
  refine ⟨run_ok hmiss hne, ?_, ?_, ?_, fun q => fmtQ2_shape q, rfl, fun row => rfl⟩
  · intro d
    rw [hagg]
    exact filter_domain_infix (domains t exps) (uniqueFirst_nodup _) _ hg d
  · rw [hagg]
    exact uniqueFirst_map_domain_sublist (domains t exps) (uniqueFirst_nodup _) _ hg
  · intro d
    by_cases hd : d ∈ domains t exps
    · rw [hagg, filter_domain_eq_of_mem (domains t exps) (uniqueFirst_nodup _) _ hg d hd]
      have hdef : aggRowsForDomain t (domainRows t exps d) d exps
          = if commonProblems (domainRows t exps d) exps = ∅ then []
            else exps.filterMap (fun e2 =>
              if expFinalRows (domainRows t exps d)
                  (commonProblems (domainRows t exps d) exps) e2 = [] then none
              else some (mkAggRow t d e2 (commonProblems (domainRows t exps d) exps)
                (expFinalRows (domainRows t exps d)
                  (commonProblems (domainRows t exps d) exps) e2))) := rfl
      rw [hdef]
      by_cases hc : commonProblems (domainRows t exps d) exps = ∅
      · rw [if_pos hc]
        simp
      · rw [if_neg hc]
        exact filterMap_map_exp_sublist exps _
          (fun e2 r2 hf => aggRowFn_experiment_name e2 r2 hf)
    · rw [hagg, filter_domain_eq_nil (domains t exps) _ hg d hd]
      simp

/-- C7 witness: on the sample table the rows of domain `D` form a
contiguous infix of the aggregated output. -/
theorem stats_C7_witness :
    missingExperiments sampleTable ["A", "B"] = [] ∧
    (∃ A C, aggregatedRows sampleTable ["A", "B"]
      = A ++ ((aggregatedRows sampleTable ["A", "B"]).filter
          (fun r => r.domain_name == "D")) ++ C) :=
  ⟨by decide,
   (stats_C7_amended sampleTable ["A", "B"] (by decide) (by decide)).2.1 "D"⟩
